import Mathlib

/-!
Shallow embedding of the english-learning-app backend, for checking the
natural-language specification against the code.

Embedded source:
- the progress routes (save-word, quiz-result handlers),
- the quiz-article service (generateQuizArticle, generateArticleWithLLM,
  generateFallbackArticle, cleanupOldCache),
- the sqlite schema defaults from database/init.ts.

Modelling conventions: sqlite tables are lists of records; the in-process
node-cache is a keyed association list with explicit expiry timestamps;
timestamps are naturals (unix seconds); the external generative call is an
explicit input (none = the call threw or timed out, some s = the raw
response text); fresh row ids (Date.now()-based in the code) are explicit
inputs. The node-cache layer models TTL expiry, overwrite-on-set, and
the maxKeys bound whose set() throws ECACHEFULL when the cache is full;
only its lazy purging of expired entries is omitted, which can make the
modelled key count an over-approximation.
-/

/-- Mastery buckets, stored in sqlite as the strings
'needs work', 'familiar', 'well known'. The spec names them
needs_work, familiar, mastered. -/
inductive Bucket where
  | needsWork
  | familiar
  | wellKnown
deriving DecidableEq

/-- The bucket transition of the POST /api/progress/quiz-result handler:
on a correct answer 'needs work' moves to 'familiar', 'familiar' moves to
'well known', 'well known' stays; on an incorrect answer any bucket is
demoted to 'needs work'. -/
def applyQuiz (b : Bucket) (isCorrect : Bool) : Bucket :=
  if isCorrect then
    match b with
    | .needsWork => .familiar
    | .familiar => .wellKnown
    | .wellKnown => .wellKnown
  else
    .needsWork

/-- C2: on a correct answer needs_work maps to familiar, familiar maps to
mastered ('well known'), and mastered stays mastered; on an incorrect
answer every bucket maps to needs_work. -/
theorem c2_mastery_transition :
    applyQuiz .needsWork true = .familiar ∧
    applyQuiz .familiar true = .wellKnown ∧
    applyQuiz .wellKnown true = .wellKnown ∧
    ∀ b : Bucket, applyQuiz b false = .needsWork := by
  refine ⟨rfl, rfl, rfl, ?_⟩
  intro b
  cases b <;> rfl

/-- A user_words row (database/init.ts): created with bucket 'needs work'
and review/correct/incorrect counters defaulting to 0. -/
structure UserWord where
  id : String
  userId : String
  wordId : String
  bucket : Bucket
  lastReviewed : Option Nat
  reviewCount : Nat
  correctCount : Nat
  incorrectCount : Nat
deriving DecidableEq

/-- A quiz_results row. -/
structure QuizRow where
  id : String
  userId : String
  wordId : String
  isCorrect : Bool
deriving DecidableEq

/-- A daily_progress row, with the three counters defaulting to 0. -/
structure DailyRow where
  id : String
  userId : String
  date : String
  wordsSaved : Nat
  quizzesCompleted : Nat
  wordsReviewed : Nat
deriving DecidableEq

/-- The persistent state touched by the progress routes: users and words
are kept as lists of ids (only existence is consulted). -/
structure ProgressDb where
  users : List String
  words : List String
  userWords : List UserWord
  quizResults : List QuizRow
  dailyProgress : List DailyRow
deriving DecidableEq

/-- Outcome of POST /api/progress/quiz-result. -/
inductive QuizResp where
  | badRequest
  | userNotFound
  | wordNotFound
  | saved (newBucket : Option Bucket)
deriving DecidableEq

/-- Outcome of POST /api/progress/save-word. -/
inductive SaveResp where
  | badRequest
  | wordNotFound
  | alreadySaved (userWordId : String)
  | saved (userWordId : String)
deriving DecidableEq

/-- Bump words_reviewed in daily_progress for (userId, today), inserting a
fresh row with words_reviewed = 1 when none exists (quiz-result handler,
daily-progress section). -/
def bumpWordsReviewed (dp : List DailyRow) (userId today freshId : String) :
    List DailyRow :=
  match dp.find? (fun d => decide (d.userId = userId ∧ d.date = today)) with
  | some row =>
      dp.map (fun d =>
        if d.id = row.id then { d with wordsReviewed := d.wordsReviewed + 1 } else d)
  | none =>
      dp ++ [⟨freshId, userId, today, 0, 0, 1⟩]

/-- Bump words_saved in daily_progress for (userId, today), inserting a
fresh row with words_saved = 1 when none exists (save-word handler). -/
def bumpWordsSaved (dp : List DailyRow) (userId today freshId : String) :
    List DailyRow :=
  match dp.find? (fun d => decide (d.userId = userId ∧ d.date = today)) with
  | some row =>
      dp.map (fun d =>
        if d.id = row.id then { d with wordsSaved := d.wordsSaved + 1 } else d)
  | none =>
      dp ++ [⟨freshId, userId, today, 1, 0, 0⟩]

/-- POST /api/progress/quiz-result. Validates the user and the word, then
unconditionally inserts a quiz_results row; when a user_words row exists
for (userId, wordId) it applies the bucket transition, updates the
counters and bumps daily progress; otherwise it still answers success
with a null newBucket. -/
def recordQuizResult (db : ProgressDb) (userId wordId : String)
    (isCorrect : Bool) (now : Nat) (today : String)
    (freshResultId freshProgressId : String) : QuizResp × ProgressDb :=
  if userId = "" ∨ wordId = "" then (.badRequest, db)
  else if ¬ userId ∈ db.users then (.userNotFound, db)
  else if ¬ wordId ∈ db.words then (.wordNotFound, db)
  else
    let db1 := { db with
      quizResults := db.quizResults ++ [⟨freshResultId, userId, wordId, isCorrect⟩] }
    match db.userWords.find? (fun uw => decide (uw.userId = userId ∧ uw.wordId = wordId)) with
    | none => (.saved none, db1)
    | some uw =>
        let nb := applyQuiz uw.bucket isCorrect
        let db2 := { db1 with
          userWords := db1.userWords.map (fun (x : UserWord) =>
            if x.id = uw.id then
              { x with
                bucket := nb
                lastReviewed := some now
                reviewCount := x.reviewCount + 1
                correctCount := x.correctCount + (if isCorrect then 1 else 0)
                incorrectCount := x.incorrectCount + (if isCorrect then 0 else 1) }
            else x) }
        let db3 := { db2 with
          dailyProgress := bumpWordsReviewed db2.dailyProgress userId today freshProgressId }
        (.saved (some nb), db3)

/-- POST /api/progress/save-word. Validates the word, answers with the
existing user_words id when the pair is already saved, otherwise inserts
a fresh row with bucket 'needs work' and zero counters and bumps the
day's words_saved counter. -/
def saveWord (db : ProgressDb) (userId wordId : String)
    (freshUserWordId freshProgressId today : String) : SaveResp × ProgressDb :=
  if userId = "" ∨ wordId = "" then (.badRequest, db)
  else if ¬ wordId ∈ db.words then (.wordNotFound, db)
  else
    match db.userWords.find? (fun uw => decide (uw.userId = userId ∧ uw.wordId = wordId)) with
    | some uw => (.alreadySaved uw.id, db)
    | none =>
        let db1 := { db with
          userWords := db.userWords ++
            [UserWord.mk freshUserWordId userId wordId .needsWork none 0 0 0] }
        let db2 := { db1 with
          dailyProgress := bumpWordsSaved db1.dailyProgress userId today freshProgressId }
        (.saved freshUserWordId, db2)

/-- C4 counterexample: user u1 and word w1 exist but w1 is not in u1's
saved collection (user_words is empty); the quiz-result handler does not
report NotFound - it answers success with a null newBucket - and it
inserts a quiz_results row, mutating persistent state. -/
theorem c4_counterexample_not_notfound :
    (recordQuizResult ⟨["u1"], ["w1"], [], [], []⟩ "u1" "w1" true 5 "d1" "q1" "p1").1
      = .saved none ∧
    (recordQuizResult ⟨["u1"], ["w1"], [], [], []⟩ "u1" "w1" true 5 "d1" "q1" "p1").2.quizResults
      = [⟨"q1", "u1", "w1", true⟩] := by
  decide

/-- C4 amended: when the user and the word both exist but the word is not
in the user's saved collection, recordQuizResult answers success with a
null newBucket, inserts exactly one quiz_results row, and leaves
user_words and daily_progress (and everything else) unchanged; NotFound
is reported only for an unknown user id or word id. -/
theorem c4_quiz_result_word_not_saved :
    ∀ (db : ProgressDb) (u w : String) (c : Bool) (now : Nat)
      (today rid pid : String),
      u ≠ "" → w ≠ "" → u ∈ db.users → w ∈ db.words →
      db.userWords.find? (fun uw => decide (uw.userId = u ∧ uw.wordId = w)) = none →
      recordQuizResult db u w c now today rid pid =
        (.saved none, { db with quizResults := db.quizResults ++ [⟨rid, u, w, c⟩] }) := by
  intro db u w c now today rid pid hu hw hus hws hfind
  unfold recordQuizResult
  rw [if_neg (by simp [hu, hw]), if_neg (by simp [hus]), if_neg (by simp [hws]), hfind]

theorem c4_quiz_result_word_not_saved_witness :
    recordQuizResult ⟨["u1"], ["w1"], [], [], []⟩ "u1" "w1" false 3 "d1" "q1" "p1" =
      (.saved none,
        { ProgressDb.mk ["u1"] ["w1"] [] [] [] with
          quizResults := [] ++ [⟨"q1", "u1", "w1", false⟩] }) :=
  c4_quiz_result_word_not_saved ⟨["u1"], ["w1"], [], [], []⟩ "u1" "w1" false 3 "d1" "q1" "p1"
    (by decide) (by decide) (by decide) (by decide) (by decide)

/-- The counter invariant of claim C5 on a list of user_words rows. -/
def CountsConsistent (l : List UserWord) : Prop :=
  ∀ uw ∈ l, uw.reviewCount = uw.correctCount + uw.incorrectCount

/-- C5: the invariant reviewCount = correctCount + incorrectCount is
established at creation (saveWord inserts a row with all three counters
zero) and preserved by every recordQuizResult call (each update adds one
to reviewCount and one to exactly one of the other two counters). -/
theorem c5_review_count_invariant :
    (∀ (db : ProgressDb) (u w : String) (c : Bool) (now : Nat)
       (today rid pid : String),
       CountsConsistent db.userWords →
       CountsConsistent (recordQuizResult db u w c now today rid pid).2.userWords) ∧
    (∀ (db : ProgressDb) (u w uwid pid today : String),
       CountsConsistent db.userWords →
       CountsConsistent (saveWord db u w uwid pid today).2.userWords) := by
  constructor
  · intro db u w c now today rid pid h
    unfold recordQuizResult
    split
    · exact h
    split
    · exact h
    split
    · exact h
    split
    · exact h
    · rename_i uw _
      intro x hx
      simp only [List.mem_map] at hx
      obtain ⟨y, hy, rfl⟩ := hx
      have hyc := h y hy
      by_cases hid : y.id = uw.id
      · simp only [hid, if_pos rfl]
        cases c <;> simp <;> omega
      · simp only [if_neg hid]
        exact hyc
  · intro db u w uwid pid today h
    unfold saveWord
    split
    · exact h
    split
    · exact h
    split
    · exact h
    · intro x hx
      simp only [List.mem_append, List.mem_singleton] at hx
      rcases hx with hx | rfl
      · exact h x hx
      · rfl

theorem c5_review_count_invariant_witness :
    CountsConsistent
      (recordQuizResult
        ⟨["u1"], ["w1"], [⟨"uw1", "u1", "w1", .needsWork, none, 0, 0, 0⟩], [], []⟩
        "u1" "w1" true 7 "d1" "q1" "p1").2.userWords :=
  c5_review_count_invariant.1
    ⟨["u1"], ["w1"], [⟨"uw1", "u1", "w1", .needsWork, none, 0, 0, 0⟩], [], []⟩
    "u1" "w1" true 7 "d1" "q1" "p1"
    (by intro x hx; simp only [List.mem_singleton] at hx; subst hx; rfl)

/-- C10: saving an already-saved word is idempotent: when a user_words row
for (userId, wordId) exists (and the word id is valid, as every saved row
references an existing words row), save-word answers with the existing
row id and leaves the whole persistent state unchanged; in particular no
row is inserted and the day's wordsSaved counter is untouched. -/
theorem c10_save_word_idempotent :
    ∀ (db : ProgressDb) (u w uwid pid today : String) (uw : UserWord),
      u ≠ "" → w ≠ "" → w ∈ db.words →
      db.userWords.find? (fun x => decide (x.userId = u ∧ x.wordId = w)) = some uw →
      saveWord db u w uwid pid today = (.alreadySaved uw.id, db) := by
  intro db u w uwid pid today uw hu hw hws hfind
  unfold saveWord
  rw [if_neg (by simp [hu, hw]), if_neg (by simp [hws]), hfind]

theorem c10_save_word_idempotent_witness :
    saveWord ⟨["u1"], ["w1"], [⟨"uw1", "u1", "w1", .familiar, some 4, 2, 1, 1⟩], [], []⟩
        "u1" "w1" "uw-new" "p-new" "d1" =
      (.alreadySaved "uw1",
        ⟨["u1"], ["w1"], [⟨"uw1", "u1", "w1", .familiar, some 4, 2, 1, 1⟩], [], []⟩) :=
  c10_save_word_idempotent
    ⟨["u1"], ["w1"], [⟨"uw1", "u1", "w1", .familiar, some 4, 2, 1, 1⟩], [], []⟩
    "u1" "w1" "uw-new" "p-new" "d1" ⟨"uw1", "u1", "w1", .familiar, some 4, 2, 1, 1⟩
    (by decide) (by decide) (by decide) (by decide)

/-- A word as selected for quiz generation (id, word, definition). -/
structure QuizWord where
  id : String
  word : String
  definition : String
deriving DecidableEq

/-- Code-unit lexicographic comparison of char lists: the default string
comparator of the JS Array sort used on the word ids. -/
def dataLe : List Char → List Char → Bool
  | [], _ => true
  | _ :: _, [] => false
  | a :: as, b :: bs =>
      if a = b then dataLe as bs else decide (a.toNat < b.toNat)

/-- String comparison by code units. -/
def strLe (a b : String) : Prop :=
  dataLe a.data b.data = true

instance : DecidableRel strLe :=
  fun a b => inferInstanceAs (Decidable (dataLe a.data b.data = true))

theorem char_eq_of_toNat_eq {a b : Char} (h : a.toNat = b.toNat) : a = b :=
  Char.eq_of_val_eq (UInt32.toNat.inj h)

theorem dataLe_total : ∀ as bs : List Char, dataLe as bs = true ∨ dataLe bs as = true := by
  intro as
  induction as with
  | nil => intro bs; left; rfl
  | cons a as ih =>
      intro bs
      cases bs with
      | nil => right; rfl
      | cons b bs =>
          by_cases h : a = b
          · subst h
            simpa [dataLe] using ih bs
          · have h' : b ≠ a := Ne.symm h
            have hne : a.toNat ≠ b.toNat := fun hn => h (char_eq_of_toNat_eq hn)
            simp [dataLe, h, h']
            omega

theorem dataLe_trans :
    ∀ as bs cs : List Char,
      dataLe as bs = true → dataLe bs cs = true → dataLe as cs = true := by
  intro as
  induction as with
  | nil => intro bs cs _ _; rfl
  | cons a as ih =>
      intro bs cs h1 h2
      cases bs with
      | nil => simp [dataLe] at h1
      | cons b bs =>
          cases cs with
          | nil => simp [dataLe] at h2
          | cons c cs =>
              by_cases hab : a = b
              · subst hab
                by_cases hac : a = c
                · subst hac
                  simp only [dataLe, if_pos rfl] at h1 h2 ⊢
                  exact ih bs cs h1 h2
                · simp only [dataLe, if_pos rfl] at h1
                  simpa [dataLe, hac] using h2
              · by_cases hbc : b = c
                · subst hbc
                  simp only [dataLe, if_pos rfl] at h2
                  simpa [dataLe, hab] using h1
                · simp only [dataLe, if_neg hab, if_neg hbc,
                    decide_eq_true_eq] at h1 h2
                  have hac : a ≠ c := by
                    intro he
                    subst he
                    omega
                  simp only [dataLe, if_neg hac, decide_eq_true_eq]
                  omega

theorem dataLe_antisymm :
    ∀ as bs : List Char, dataLe as bs = true → dataLe bs as = true → as = bs := by
  intro as
  induction as with
  | nil =>
      intro bs _ h2
      cases bs with
      | nil => rfl
      | cons b bs => simp [dataLe] at h2
  | cons a as ih =>
      intro bs h1 h2
      cases bs with
      | nil => simp [dataLe] at h1
      | cons b bs =>
          by_cases hab : a = b
          · subst hab
            simp only [dataLe, if_pos rfl] at h1 h2
            rw [ih bs h1 h2]
          · have hba : b ≠ a := Ne.symm hab
            simp only [dataLe, if_neg hab, if_neg hba, decide_eq_true_eq] at h1 h2
            omega

instance : IsTotal String strLe :=
  ⟨fun a b => dataLe_total a.data b.data⟩

instance : IsTrans String strLe :=
  ⟨fun a b c => dataLe_trans a.data b.data c.data⟩

instance : IsAntisymm String strLe :=
  ⟨fun a b h1 h2 => String.ext (dataLe_antisymm a.data b.data h1 h2)⟩

/-- The JS words.map(w => w.id).sort() step: lexicographic sort of the
word ids by code units (modelled with insertion sort, which computes one
of the sorted arrangements; the order is total so the result is unique). -/
def sortIds (l : List String) : List String :=
  List.insertionSort strLe l

/-- The JS .join(',') step. -/
def joinComma : List String → String
  | [] => ""
  | [s] => s
  | s :: rest => s ++ "," ++ joinComma rest

/-- The cache key of generateQuizArticle: sorted word ids joined with
commas. -/
def cacheKeyOf (ids : List String) : String :=
  joinComma (sortIds ids)

theorem sortIds_perm (l : List String) : (sortIds l).Perm l :=
  List.perm_insertionSort _ l

theorem sortIds_eq_of_perm {l₁ l₂ : List String} (h : l₁.Perm l₂) :
    sortIds l₁ = sortIds l₂ :=
  List.eq_of_perm_of_sorted
    ((sortIds_perm l₁).trans (h.trans (sortIds_perm l₂).symm))
    (List.sorted_insertionSort _ l₁) (List.sorted_insertionSort _ l₂)

theorem split_first_comma :
    ∀ (a b r₁ r₂ : List Char), (',' : Char) ∉ a → (',' : Char) ∉ b →
      a ++ ',' :: r₁ = b ++ ',' :: r₂ → a = b ∧ r₁ = r₂ := by
  intro a
  induction a with
  | nil =>
      intro b r₁ r₂ _ hb h
      cases b with
      | nil => simpa using h
      | cons d bs =>
          simp only [List.nil_append, List.cons_append, List.cons.injEq] at h
          exact absurd (h.1 ▸ List.mem_cons_self d bs) hb
  | cons c as ih =>
      intro b r₁ r₂ ha hb h
      cases b with
      | nil =>
          simp only [List.cons_append, List.nil_append, List.cons.injEq] at h
          exact absurd (h.1 ▸ List.mem_cons_self c as) ha
      | cons d bs =>
          simp only [List.cons_append, List.cons.injEq] at h
          obtain ⟨rfl, htail⟩ := h
          have has : (',' : Char) ∉ as := fun hm => ha (List.mem_cons_of_mem _ hm)
          have hbs : (',' : Char) ∉ bs := fun hm => hb (List.mem_cons_of_mem _ hm)
          obtain ⟨rfl, hr⟩ := ih bs r₁ r₂ has hbs htail
          exact ⟨rfl, hr⟩

theorem joinComma_cons_data (s r : String) (rest : List String) :
    (joinComma (s :: r :: rest)).data =
      s.data ++ ',' :: (joinComma (r :: rest)).data := by
  show (s ++ "," ++ joinComma (r :: rest)).data = _
  rw [String.data_append, String.data_append]
  simp

theorem joinComma_inj :
    ∀ (l₁ l₂ : List String),
      (∀ s ∈ l₁, (',' : Char) ∉ s.data) → (∀ s ∈ l₂, (',' : Char) ∉ s.data) →
      l₁ ≠ [] → l₂ ≠ [] → joinComma l₁ = joinComma l₂ → l₁ = l₂ := by
  intro l₁
  induction l₁ with
  | nil => intro l₂ _ _ hne; exact absurd rfl hne
  | cons s₁ rest₁ ih =>
      intro l₂ h₁ h₂ _ hne₂ heq
      cases l₂ with
      | nil => exact absurd rfl hne₂
      | cons s₂ rest₂ =>
          cases rest₁ with
          | nil =>
              cases rest₂ with
              | nil => simpa [joinComma] using heq
              | cons r₂ rs₂ =>
                  exfalso
                  have hd : s₁.data = s₂.data ++ ',' :: (joinComma (r₂ :: rs₂)).data := by
                    have := congrArg String.data heq
                    rwa [joinComma_cons_data] at this
                  exact h₁ s₁ (List.mem_cons_self _ _)
                    (hd ▸ List.mem_append_right _ (List.mem_cons_self _ _))
          | cons r₁ rs₁ =>
              cases rest₂ with
              | nil =>
                  exfalso
                  have hd : s₂.data = s₁.data ++ ',' :: (joinComma (r₁ :: rs₁)).data := by
                    have := congrArg String.data heq.symm
                    rwa [joinComma_cons_data] at this
                  exact h₂ s₂ (List.mem_cons_self _ _)
                    (hd ▸ List.mem_append_right _ (List.mem_cons_self _ _))
              | cons r₂ rs₂ =>
                  have hd := congrArg String.data heq
                  rw [joinComma_cons_data, joinComma_cons_data] at hd
                  obtain ⟨hs, hrest⟩ := split_first_comma _ _ _ _
                    (h₁ s₁ (List.mem_cons_self _ _)) (h₂ s₂ (List.mem_cons_self _ _)) hd
                  have hs' : s₁ = s₂ := String.ext hs
                  have hrest' : joinComma (r₁ :: rs₁) = joinComma (r₂ :: rs₂) :=
                    String.ext hrest
                  have htl : r₁ :: rs₁ = r₂ :: rs₂ :=
                    ih (r₂ :: rs₂)
                      (fun s hs => h₁ s (List.mem_cons_of_mem _ hs))
                      (fun s hs => h₂ s (List.mem_cons_of_mem _ hs))
                      (by simp) (by simp) hrest'
                  rw [hs', htl]

/-- C6: the cache key of generateQuizArticle is invariant under
permutation of the word list; and conversely, for nonempty word lists
whose ids contain no comma (the join separator), equal keys force the
id lists to be permutations of one another, so differing id sets get
differing keys. -/
theorem c6_cache_key_permutation :
    ∀ (w₁ w₂ : List QuizWord),
      ((w₁.map QuizWord.id).Perm (w₂.map QuizWord.id) →
        cacheKeyOf (w₁.map QuizWord.id) = cacheKeyOf (w₂.map QuizWord.id)) ∧
      ((∀ s ∈ w₁.map QuizWord.id, (',' : Char) ∉ s.data) →
       (∀ s ∈ w₂.map QuizWord.id, (',' : Char) ∉ s.data) →
        w₁ ≠ [] → w₂ ≠ [] →
        cacheKeyOf (w₁.map QuizWord.id) = cacheKeyOf (w₂.map QuizWord.id) →
        (w₁.map QuizWord.id).Perm (w₂.map QuizWord.id)) := by
  intro w₁ w₂
  constructor
  · intro hperm
    unfold cacheKeyOf
    rw [sortIds_eq_of_perm hperm]
  · intro h₁ h₂ hne₁ hne₂ hkey
    have hn₁ : w₁.map QuizWord.id ≠ [] := by
      simpa [List.map_eq_nil_iff] using hne₁
    have hn₂ : w₂.map QuizWord.id ≠ [] := by
      simpa [List.map_eq_nil_iff] using hne₂
    have hs₁ : sortIds (w₁.map QuizWord.id) ≠ [] := by
      intro h0
      exact hn₁ (List.Perm.eq_nil ((sortIds_perm _).symm.trans (by rw [h0])))
    have hs₂ : sortIds (w₂.map QuizWord.id) ≠ [] := by
      intro h0
      exact hn₂ (List.Perm.eq_nil ((sortIds_perm _).symm.trans (by rw [h0])))
    have hcf₁ : ∀ s ∈ sortIds (w₁.map QuizWord.id), (',' : Char) ∉ s.data :=
      fun s hs => h₁ s ((sortIds_perm _).mem_iff.mp hs)
    have hcf₂ : ∀ s ∈ sortIds (w₂.map QuizWord.id), (',' : Char) ∉ s.data :=
      fun s hs => h₂ s ((sortIds_perm _).mem_iff.mp hs)
    have hsort : sortIds (w₁.map QuizWord.id) = sortIds (w₂.map QuizWord.id) :=
      joinComma_inj _ _ hcf₁ hcf₂ hs₁ hs₂ hkey
    exact (sortIds_perm _).symm.trans (hsort ▸ sortIds_perm (w₂.map QuizWord.id))

theorem c6_cache_key_permutation_witness :
    cacheKeyOf (([⟨"word-1", "Serendipity", "dA"⟩, ⟨"word-2", "Ubiquitous", "dB"⟩] :
        List QuizWord).map QuizWord.id) =
      cacheKeyOf (([⟨"word-2", "Ubiquitous", "dB"⟩, ⟨"word-1", "Serendipity", "dA"⟩] :
        List QuizWord).map QuizWord.id) ∧
    (([⟨"word-1", "Serendipity", "dA"⟩, ⟨"word-2", "Ubiquitous", "dB"⟩] :
        List QuizWord).map QuizWord.id).Perm
      (([⟨"word-2", "Ubiquitous", "dB"⟩, ⟨"word-1", "Serendipity", "dA"⟩] :
        List QuizWord).map QuizWord.id) :=
  ⟨(c6_cache_key_permutation _ _).1 (by decide),
   (c6_cache_key_permutation
      [⟨"word-1", "Serendipity", "dA"⟩, ⟨"word-2", "Ubiquitous", "dB"⟩]
      [⟨"word-2", "Ubiquitous", "dB"⟩, ⟨"word-1", "Serendipity", "dA"⟩]).2
     (by decide) (by decide) (by decide) (by decide) (by decide)⟩

/-- Count of non-overlapping blank markers, six consecutive underscores,
scanned left to right: the article.match of the blank-count validation in
generateArticleWithLLM. -/
def countB : List Char → Nat
  | c1 :: c2 :: c3 :: c4 :: c5 :: c6 :: rest =>
      if c1 = '_' ∧ c2 = '_' ∧ c3 = '_' ∧ c4 = '_' ∧ c5 = '_' ∧ c6 = '_' then
        countB rest + 1
      else
        countB (c2 :: c3 :: c4 :: c5 :: c6 :: rest)
  | _ :: rest => countB rest
  | [] => 0

/-- Blank-marker count of an article string. -/
def countBlanks (s : String) : Nat :=
  countB s.data

/-- Char-list containment check backing the JS String includes tests of
the fallback generator. -/
def startsChars : List Char → List Char → Bool
  | [], _ => true
  | _ :: _, [] => false
  | a :: as, b :: bs => a == b && startsChars as bs

def isSubChars (pat : List Char) : List Char → Bool
  | [] => startsChars pat []
  | c :: rest => startsChars pat (c :: rest) || isSubChars pat rest

/-- JS s.includes(pat). -/
def strContains (s pat : String) : Bool :=
  isSubChars pat.data s.data

/-- JS s.toLowerCase(), char by char. -/
def strToLower (s : String) : String :=
  ⟨s.data.map Char.toLower⟩

/-- JS s.trim(): strip whitespace from both ends. -/
def strTrim (s : String) : String :=
  ⟨((s.data.dropWhile Char.isWhitespace).reverse.dropWhile Char.isWhitespace).reverse⟩

/-- One sentence of generateFallbackArticle, keyed on the word definition
(lowercased), exactly mirroring the if/else chain of the source. -/
def fallbackSentence (defn : String) : String :=
  let d := strToLower defn
  if strContains d "time" || strContains d "short" then
    "The ______ nature of the event made it all the more special."
  else if strContains d "everywhere" || strContains d "present" then
    "Technology has become ______ in our daily lives."
  else if strContains d "chance" || strContains d "discovery" then
    "Finding that solution was pure ______."
  else if strContains d "speaking" || strContains d "writing" then
    "Her ______ presentation captivated the entire audience."
  else if strContains d "recover" || strContains d "difficulties" then
    "The community proved to be remarkably ______ after the crisis."
  else if strContains d "detail" || strContains d "careful" then
    "His ______ approach ensured nothing was overlooked."
  else if strContains d "meaning" || strContains d "unclear" then
    "The instructions were intentionally ______, leaving room for interpretation."
  else if strContains d "practical" || strContains d "real" then
    "We need a more ______ solution to this problem."
  else
    "The concept of ______ is essential in this context."

/-- JS sentences.join(' '). -/
def joinSpace : List String → String
  | [] => ""
  | [s] => s
  | s :: rest => s ++ " " ++ joinSpace rest

/-- generateFallbackArticle: one templated sentence per word, joined with
single spaces. -/
def generateFallbackArticle (words : List QuizWord) : String :=
  joinSpace (words.map (fun w => fallbackSentence w.definition))

theorem countB_cons_ne (c : Char) (l : List Char) (h : c ≠ '_') :
    countB (c :: l) = countB l := by
  match l with
  | [] => rfl
  | [c2] => rfl
  | [c2, c3] => rfl
  | [c2, c3, c4] => rfl
  | [c2, c3, c4, c5] => rfl
  | c2 :: c3 :: c4 :: c5 :: c6 :: rest =>
      show (if c = '_' ∧ c2 = '_' ∧ c3 = '_' ∧ c4 = '_' ∧ c5 = '_' ∧ c6 = '_' then
        countB rest + 1 else countB (c2 :: c3 :: c4 :: c5 :: c6 :: rest)) = _
      rw [if_neg (fun hc => h hc.1)]

theorem countB_safe_prepend :
    ∀ (l tail : List Char), (∀ c ∈ l, c ≠ '_') → countB (l ++ tail) = countB tail := by
  intro l
  induction l with
  | nil => intro tail _; rfl
  | cons c l ih =>
      intro tail h
      rw [List.cons_append, countB_cons_ne c _ (h c (List.mem_cons_self _ _)),
        ih tail (fun x hx => h x (List.mem_cons_of_mem _ hx))]

/-- Every fallback template carries exactly one blank marker, and keeps
carrying exactly one more than whatever is appended after it. -/
theorem fallbackSentence_prepend (defn : String) (tail : List Char) :
    countB ((fallbackSentence defn).data ++ tail) = countB tail + 1 := by
  unfold fallbackSentence
  dsimp only
  split_ifs
  · rw [show countB
        ("The ______ nature of the event made it all the more special.".data ++ tail) =
        countB (['c', 'i', 'a', 'l', '.'] ++ tail) + 1 from rfl,
      countB_safe_prepend _ _ (by decide)]
  · rw [show countB ("Technology has become ______ in our daily lives.".data ++ tail) =
        countB (['i', 'v', 'e', 's', '.'] ++ tail) + 1 from rfl,
      countB_safe_prepend _ _ (by decide)]
  · rw [show countB ("Finding that solution was pure ______.".data ++ tail) =
        countB (['.'] ++ tail) + 1 from rfl,
      countB_safe_prepend _ _ (by decide)]
  · rw [show countB ("Her ______ presentation captivated the entire audience.".data ++ tail) =
        countB (['e', 'n', 'c', 'e', '.'] ++ tail) + 1 from rfl,
      countB_safe_prepend _ _ (by decide)]
  · rw [show countB
        ("The community proved to be remarkably ______ after the crisis.".data ++ tail) =
        countB (['i', 's', 'i', 's', '.'] ++ tail) + 1 from rfl,
      countB_safe_prepend _ _ (by decide)]
  · rw [show countB ("His ______ approach ensured nothing was overlooked.".data ++ tail) =
        countB (['o', 'k', 'e', 'd', '.'] ++ tail) + 1 from rfl,
      countB_safe_prepend _ _ (by decide)]
  · rw [show countB
        ("The instructions were intentionally ______, leaving room for interpretation.".data
          ++ tail) =
        countB (['t', 'i', 'o', 'n', '.'] ++ tail) + 1 from rfl,
      countB_safe_prepend _ _ (by decide)]
  · rw [show countB ("We need a more ______ solution to this problem.".data ++ tail) =
        countB (['b', 'l', 'e', 'm', '.'] ++ tail) + 1 from rfl,
      countB_safe_prepend _ _ (by decide)]
  · rw [show countB ("The concept of ______ is essential in this context.".data ++ tail) =
        countB (['t', 'e', 'x', 't', '.'] ++ tail) + 1 from rfl,
      countB_safe_prepend _ _ (by decide)]

/-- C9 amended: articles built by the fallback generator always contain
exactly one blank marker per word, so when the external generation fails
(the provider call throws, times out, or answers empty) the article that
resolveArticle returns and caches has exactly K blanks for a word set of
size K; blank-count correctness of provider-produced articles is not
enforced (the mismatch is only logged). -/
theorem c9_fallback_blank_count :
    ∀ words : List QuizWord,
      countBlanks (generateFallbackArticle words) = words.length := by
  intro words
  unfold generateFallbackArticle countBlanks
  induction words with
  | nil => rfl
  | cons w ws ih =>
      cases ws with
      | nil =>
          have h := fallbackSentence_prepend w.definition []
          simpa [joinSpace] using h
      | cons w2 ws2 =>
          show countB ((fallbackSentence w.definition ++ " " ++
            joinSpace ((w2 :: ws2).map (fun x => fallbackSentence x.definition))).data) = _
          rw [String.data_append, String.data_append, List.append_assoc,
            fallbackSentence_prepend]
          have hsp : (" ".data ++
              (joinSpace ((w2 :: ws2).map (fun x => fallbackSentence x.definition))).data) =
              ' ' :: (joinSpace ((w2 :: ws2).map (fun x => fallbackSentence x.definition))).data := by
            rfl
          rw [hsp, countB_cons_ne ' ' _ (by decide), ih]
          simp

/-- A cached_articles row (database/init.ts): access_count defaults to 0,
created_at and last_accessed default to now. -/
structure CachedArticle where
  id : String
  wordIds : String
  articleText : String
  createdAt : Nat
  accessCount : Nat
  lastAccessed : Nat
deriving DecidableEq

/-- An entry of the in-process node-cache: key, value and the absolute
expiry instant (set time plus the configured stdTTL). -/
structure MemEntry where
  key : String
  text : String
  expiresAt : Nat
deriving DecidableEq

/-- The two cache layers of the article service. -/
structure CacheState where
  mem : List MemEntry
  dbc : List CachedArticle
deriving DecidableEq

/-- The environment configuration read by the service: CACHE_TTL_SECONDS
(default 3600), QUIZ_CACHE_TTL_SECONDS (default 86400),
MAX_CACHED_ARTICLES (default 1000), OPENAI_API_KEY (none when unset or
empty after trimming). -/
structure LlmConfig where
  memTtlSeconds : Nat
  quizCacheTtlSeconds : Nat
  maxCachedArticles : Nat
  apiKey : Option String
deriving DecidableEq

/-- The errors generateQuizArticle can propagate: the explicit throw on an
empty word list; the getApiKey throw when OPENAI_API_KEY is unset (raised
outside the try/catch that guards the provider call); and the ECACHEFULL
throw of node-cache set when the memory cache already holds maxKeys keys
(both set call sites are outside any try/catch). -/
inductive LlmErr where
  | noWords
  | missingApiKey
  | cacheFull
deriving DecidableEq

/-- node-cache get: the stored value while unexpired. -/
def memGet (mem : List MemEntry) (now : Nat) (k : String) : Option String :=
  match mem.find? (fun e => decide (e.key = k)) with
  | some e => if now < e.expiresAt then some e.text else none
  | none => none

/-- The if (cachedMemory) probe: an empty string is falsy in JS, so only a
nonempty unexpired value counts as a hit. -/
def memProbe (mem : List MemEntry) (now : Nat) (k : String) : Option String :=
  match memGet mem now k with
  | some t => if t = "" then none else some t
  | none => none

/-- node-cache set: the repository constructs the cache with maxKeys from
MAX_CACHED_ARTICLES, and set throws ECACHEFULL when the stored key count
has already reached maxKeys - the check precedes the existing-key test,
so it fires even for an overwrite; otherwise the key is overwritten with
expiry now + stdTTL. The model counts every stored entry, expired ones
included, as node-cache does between purges; the lazy purges (the
checkperiod sweep and the delete-on-expired-get) are not modelled, so the
model count is an upper bound of the live count and the model can only
fail where the code also fails or has just purged a slot - never the
other way around. -/
def memSet (cfg : LlmConfig) (mem : List MemEntry) (now : Nat) (k v : String) :
    Except LlmErr (List MemEntry) :=
  if cfg.maxCachedArticles ≤ mem.length then .error .cacheFull
  else .ok (⟨k, v, now + cfg.memTtlSeconds⟩ :: mem.filter (fun e => decide (e.key ≠ k)))

/-- SELECT article_text FROM cached_articles WHERE word_ids = key. -/
def dbFind (dbc : List CachedArticle) (k : String) : Option CachedArticle :=
  dbc.find? (fun e => decide (e.wordIds = k))

/-- The per-row effect of UPDATE cached_articles SET access_count + 1,
last_accessed = now WHERE word_ids = key. -/
def touchEntry (now : Nat) (k : String) (e : CachedArticle) : CachedArticle :=
  if e.wordIds = k then
    { e with accessCount := e.accessCount + 1, lastAccessed := now }
  else e

/-- UPDATE cached_articles SET access_count + 1, last_accessed = now WHERE
word_ids = key. -/
def dbTouch (dbc : List CachedArticle) (now : Nat) (k : String) :
    List CachedArticle :=
  dbc.map (touchEntry now k)

/-- Ordering by last_accessed, the ORDER BY of the capacity trim. -/
def laLe (a b : CachedArticle) : Prop :=
  a.lastAccessed ≤ b.lastAccessed

instance : DecidableRel laLe :=
  fun a b => inferInstanceAs (Decidable (a.lastAccessed ≤ b.lastAccessed))

instance : IsTotal CachedArticle laLe :=
  ⟨fun a b => Nat.le_total a.lastAccessed b.lastAccessed⟩

instance : IsTrans CachedArticle laLe :=
  ⟨fun _ _ _ h1 h2 => Nat.le_trans h1 h2⟩

/-- cleanupOldCache: age expiry (delete rows whose last_accessed is older
than now minus QUIZ_CACHE_TTL_SECONDS), then the capacity trim (delete
the oldest-by-last_accessed rows down to MAX_CACHED_ARTICLES). -/
def cleanupOldCache (cfg : LlmConfig) (now : Nat) (dbc : List CachedArticle) :
    List CachedArticle :=
  let cutoff := now - cfg.quizCacheTtlSeconds
  let kept := dbc.filter (fun e => decide (¬ e.lastAccessed < cutoff))
  if kept.length > cfg.maxCachedArticles then
    let toDelete := kept.length - cfg.maxCachedArticles
    let victims := ((List.insertionSort laLe kept).take toDelete).map CachedArticle.id
    kept.filter (fun e => decide (¬ e.id ∈ victims))
  else kept

/-- generateArticleWithLLM: getOpenAIClient throws when the API key is
missing (outside the try/catch); inside the try, a provider failure or an
empty trimmed response falls back to generateFallbackArticle; a nonempty
response is returned as is (a blank-count mismatch only logs a warning). -/
def generateArticleWithLLM (cfg : LlmConfig) (words : List QuizWord)
    (providerText : Option String) : Except LlmErr String :=
  match cfg.apiKey with
  | none => .error .missingApiKey
  | some _ =>
      match providerText with
      | none => .ok (generateFallbackArticle words)
      | some raw =>
          let article := strTrim raw
          if article = "" then .ok (generateFallbackArticle words)
          else .ok article

/-- generateQuizArticle: throw on an empty word list; probe the memory
cache, then the durable cache (bumping its access stats and only then
writing through to memory, in the order of the source), and on a full
miss generate, store in memory, insert durably and run cleanupOldCache.
An escaping throw carries the state it leaves behind: the durable access
stats are already bumped when the write-through set throws on the hit
path, while on the miss path the set throws before the durable insert. -/
def generateQuizArticle (cfg : LlmConfig) (words : List QuizWord)
    (providerText : Option String) (now : Nat) (freshArticleId : String)
    (st : CacheState) : Except (LlmErr × CacheState) (String × CacheState) :=
  if words.length = 0 then .error (.noWords, st)
  else
    let cacheKey := cacheKeyOf (words.map QuizWord.id)
    match memProbe st.mem now cacheKey with
    | some t => .ok (t, st)
    | none =>
        match dbFind st.dbc cacheKey with
        | some e =>
            let dbc1 := dbTouch st.dbc now cacheKey
            match memSet cfg st.mem now cacheKey e.articleText with
            | .error er => .error (er, ⟨st.mem, dbc1⟩)
            | .ok mem1 => .ok (e.articleText, ⟨mem1, dbc1⟩)
        | none =>
            match generateArticleWithLLM cfg words providerText with
            | .error er => .error (er, st)
            | .ok article =>
                match memSet cfg st.mem now cacheKey article with
                | .error er => .error (er, st)
                | .ok mem1 =>
                    let dbc1 := st.dbc ++ [⟨freshArticleId, cacheKey, article, now, 0, now⟩]
                    .ok (article, ⟨mem1, cleanupOldCache cfg now dbc1⟩)

/-- The state left behind by a generateQuizArticle call, also when it
throws. -/
def resolveState (cfg : LlmConfig) (words : List QuizWord)
    (providerText : Option String) (now : Nat) (freshArticleId : String)
    (st : CacheState) : CacheState :=
  match generateQuizArticle cfg words providerText now freshArticleId st with
  | .ok (_, st') => st'
  | .error (_, st') => st'

/-- The text answered by a generateQuizArticle call, when any. -/
def resolveText (r : Except (LlmErr × CacheState) (String × CacheState)) :
    Option String :=
  match r with
  | .ok (t, _) => some t
  | .error _ => none

instance :
    DecidableEq (Except (LlmErr × CacheState) (String × CacheState)) := fun x y =>
  match x, y with
  | .ok a, .ok b =>
      if h : a = b then .isTrue (congrArg Except.ok h)
      else .isFalse (fun hc => h (Except.ok.inj hc))
  | .error e, .error f =>
      if h : e = f then .isTrue (congrArg Except.error h)
      else .isFalse (fun hc => h (Except.error.inj hc))
  | .ok _, .error _ => .isFalse (fun hc => Except.noConfusion hc)
  | .error _, .ok _ => .isFalse (fun hc => Except.noConfusion hc)

/-- The default environment configuration (CACHE_TTL_SECONDS 3600,
QUIZ_CACHE_TTL_SECONDS 86400, MAX_CACHED_ARTICLES 1000, a key present). -/
def cfgDef : LlmConfig := ⟨3600, 86400, 1000, some "k"⟩

def wA : QuizWord := ⟨"word-1", "Serendipity", "dA"⟩

def wB : QuizWord := ⟨"word-2", "Ubiquitous", "dB"⟩

def wC : QuizWord := ⟨"word-3", "Ephemeral", "dC"⟩

/-- First resolveArticle call of the C3 scenario: full miss on the word
set A, B, C, generation, back-fill of both layers. -/
def c3Run1 : Except (LlmErr × CacheState) (String × CacheState) :=
  generateQuizArticle cfgDef [wA, wB, wC] none 0 "art1" ⟨[], []⟩

def c3St1 : CacheState :=
  resolveState cfgDef [wA, wB, wC] none 0 "art1" ⟨[], []⟩

/-- Second call of the C3 scenario, same process, reordered set C, B, A. -/
def c3Run2 : Except (LlmErr × CacheState) (String × CacheState) :=
  generateQuizArticle cfgDef [wC, wB, wA] (some "unused") 10 "art2" c3St1

/-- Second call after the volatile layer is gone (process restart). -/
def c3Run3 : Except (LlmErr × CacheState) (String × CacheState) :=
  generateQuizArticle cfgDef [wC, wB, wA] (some "unused") 10 "art2" ⟨[], c3St1.dbc⟩

/-- C1 amended: every generation-path failure (provider error or timeout,
empty or malformed response) is absorbed by the fallback - for a nonempty
word list, a configured API key and a memory cache below its maxKeys
bound, generateQuizArticle always answers some article - and the empty
word list throws InvalidInput; but two further throws escape to the
caller: the getApiKey throw when OPENAI_API_KEY is unset (the client is
constructed outside the try/catch that masks generation failures), and
the ECACHEFULL throw of the memory-cache set when the cache is full (both
set call sites are outside any try/catch). -/
theorem c1_generation_failures_absorbed :
    (∀ (cfg : LlmConfig) (words : List QuizWord) (providerText : Option String)
       (now : Nat) (fid : String) (st : CacheState),
       words ≠ [] → cfg.apiKey ≠ none →
       st.mem.length < cfg.maxCachedArticles →
       ∃ t st', generateQuizArticle cfg words providerText now fid st = .ok (t, st')) ∧
    (∀ (cfg : LlmConfig) (providerText : Option String) (now : Nat) (fid : String)
       (st : CacheState),
       generateQuizArticle cfg [] providerText now fid st = .error (.noWords, st)) := by
  constructor
  · intro cfg words providerText now fid st hw hkey hroom
    have hlen : ¬ words.length = 0 := by
      simpa [List.length_eq_zero] using hw
    have hnotfull : ¬ cfg.maxCachedArticles ≤ st.mem.length := by omega
    unfold generateQuizArticle
    rw [if_neg hlen]
    dsimp only
    rcases hm : memProbe st.mem now (cacheKeyOf (words.map QuizWord.id)) with _ | t
    · rcases hd : dbFind st.dbc (cacheKeyOf (words.map QuizWord.id)) with _ | e
      · obtain ⟨k, hak⟩ : ∃ k, cfg.apiKey = some k := by
          rcases h : cfg.apiKey with _ | k
          · exact absurd h hkey
          · exact ⟨k, rfl⟩
        have hok : ∃ a, generateArticleWithLLM cfg words providerText = .ok a := by
          unfold generateArticleWithLLM
          rw [hak]
          rcases providerText with _ | raw
          · exact ⟨_, rfl⟩
          · dsimp only
            by_cases hraw : strTrim raw = ""
            · rw [if_pos hraw]; exact ⟨_, rfl⟩
            · rw [if_neg hraw]; exact ⟨_, rfl⟩
        obtain ⟨a, ha⟩ := hok
        rw [ha]
        unfold memSet
        simp only [if_neg hnotfull]
        exact ⟨_, _, rfl⟩
      · unfold memSet
        simp only [if_neg hnotfull]
        exact ⟨_, _, rfl⟩
    · exact ⟨_, _, rfl⟩
  · intro cfg providerText now fid st
    rfl

theorem c1_generation_failures_absorbed_witness :
    ∃ t st', generateQuizArticle cfgDef [wA] none 0 "a1" ⟨[], []⟩ = .ok (t, st') :=
  c1_generation_failures_absorbed.1 cfgDef [wA] none 0 "a1" ⟨[], []⟩
    (by decide) (by decide) (by decide)

/-- C1 counterexample: two reachable errors that are not the invalid-input
one. With a nonempty, valid word set but no configured API key the
getApiKey throw escapes; and with a key configured but the memory cache
at its maxKeys bound (here maxKeys 1 with one live entry under another
key), the ECACHEFULL throw of the uncaught memory-cache set escapes. So
errors are not surfaced only for invalid word sets. -/
theorem c1_counterexample_surfaced_errors :
    generateQuizArticle ⟨3600, 86400, 1000, none⟩ [wA] none 0 "a1" ⟨[], []⟩ =
      .error (.missingApiKey, ⟨[], []⟩) ∧
    generateQuizArticle ⟨3600, 86400, 1, some "k"⟩ [wA] none 5 "a1"
        ⟨[⟨"word-9", "some cached text", 3600⟩], []⟩ =
      .error (.cacheFull, ⟨[⟨"word-9", "some cached text", 3600⟩], []⟩) ∧
    (LlmErr.missingApiKey ≠ LlmErr.noWords) ∧
    (LlmErr.cacheFull ≠ LlmErr.noWords) := by
  decide

/-- C3 counterexample: in the same process the second, reordered call is a
memory-cache hit: it returns the identical ok result with the state
untouched, so the durable entry's accessCount stays 0 instead of
incrementing to 1. -/
theorem c3_counterexample_no_increment :
    c3Run2 = c3Run1 ∧ c3St1.dbc.map CachedArticle.accessCount = [0] := by
  decide

/-- C3 amended: the second reordered call returns identical text but is a
volatile-layer hit that leaves the durable accessCount at 0; the durable
accessCount increments from 0 to 1 only when the volatile entry is gone
(fresh process), making the second call a durable-layer hit. -/
theorem c3_reordered_hit_semantics :
    resolveText c3Run2 = resolveText c3Run1 ∧
    resolveState cfgDef [wC, wB, wA] (some "unused") 10 "art2" c3St1 = c3St1 ∧
    c3St1.dbc.map CachedArticle.accessCount = [0] ∧
    resolveText c3Run3 = resolveText c3Run1 ∧
    (resolveState cfgDef [wC, wB, wA] (some "unused") 10 "art2"
      ⟨[], c3St1.dbc⟩).dbc.map CachedArticle.accessCount = [1] := by
  decide

/-- The state after resolveArticle accepts and caches a provider response
with no blank markers for a one-word set. -/
def c9St : CacheState :=
  resolveState cfgDef [wA] (some "No blanks in this response at all.") 0 "a9" ⟨[], []⟩

/-- C9 counterexample: the provider answers a nonempty article with zero
blank markers for a one-word set; generateQuizArticle stores it in both
cache layers anyway (the mismatch is only logged), so a successfully
cached article does not always carry exactly K blanks. -/
theorem c9_counterexample_mismatch_cached :
    c9St.dbc.map (fun e => countBlanks e.articleText) = [0] ∧
    c9St.mem.map (fun e => countBlanks e.text) = [0] ∧
    ([wA] : List QuizWord).length = 1 := by
  decide

theorem filter_eq_drop_of_split {α : Type} (l : List α) (t : Nat) (p : α → Bool)
    (h1 : ∀ a ∈ l.take t, ¬ p a = true) (h2 : ∀ a ∈ l.drop t, p a = true) :
    l.filter p = l.drop t := by
  conv_lhs => rw [← List.take_append_drop t l]
  rw [List.filter_append, List.filter_eq_nil_iff.mpr h1, List.filter_eq_self.mpr h2,
    List.nil_append]

theorem c8_helper_perm :
    ∀ (cfg : LlmConfig) (now : Nat) (dbc : List CachedArticle),
      (∀ e ∈ dbc, ¬ e.lastAccessed < now - cfg.quizCacheTtlSeconds) →
      (dbc.map CachedArticle.id).Nodup →
      dbc.length > cfg.maxCachedArticles →
      (cleanupOldCache cfg now dbc).Perm
        ((List.insertionSort laLe dbc).drop (dbc.length - cfg.maxCachedArticles)) := by
  intro cfg now dbc hfresh hids hover
  have hkept :
      dbc.filter (fun e => decide (¬ e.lastAccessed < now - cfg.quizCacheTtlSeconds)) =
        dbc :=
    List.filter_eq_self.mpr (fun a ha => by simpa using hfresh a ha)
  unfold cleanupOldCache
  dsimp only
  rw [hkept, if_pos hover]
  have hperm : (List.insertionSort laLe dbc).Perm dbc := List.perm_insertionSort laLe dbc
  have hsnodup : ((List.insertionSort laLe dbc).map CachedArticle.id).Nodup :=
    ((hperm.map CachedArticle.id).nodup_iff).mpr hids
  have hsplit := List.take_append_drop (dbc.length - cfg.maxCachedArticles)
    (List.insertionSort laLe dbc)
  have hdisj : ∀ e ∈ (List.insertionSort laLe dbc).drop
      (dbc.length - cfg.maxCachedArticles),
      e.id ∉ ((List.insertionSort laLe dbc).take
        (dbc.length - cfg.maxCachedArticles)).map CachedArticle.id := by
    intro e he hin
    have hmapsplit :
        ((List.insertionSort laLe dbc).take (dbc.length - cfg.maxCachedArticles)).map
            CachedArticle.id ++
          ((List.insertionSort laLe dbc).drop (dbc.length - cfg.maxCachedArticles)).map
            CachedArticle.id =
          (List.insertionSort laLe dbc).map CachedArticle.id := by
      rw [← List.map_append, hsplit]
    rw [← hmapsplit] at hsnodup
    exact (List.nodup_append.mp hsnodup).2.2 hin (List.mem_map_of_mem _ he)
  have heq := filter_eq_drop_of_split (List.insertionSort laLe dbc)
    (dbc.length - cfg.maxCachedArticles)
    (fun e => decide (¬ e.id ∈ ((List.insertionSort laLe dbc).take
      (dbc.length - cfg.maxCachedArticles)).map CachedArticle.id))
    (fun a ha => by simpa using List.mem_map_of_mem CachedArticle.id ha)
    (fun a ha => by simpa using hdisj a ha)
  exact ((hperm.filter _).symm).trans (heq ▸ List.Perm.refl _)

/-- C8: when the durable store exceeds MAX_CACHED_ARTICLES (and no entry
is age-expired, isolating the capacity rule, with well-defined oldest
entries: distinct ids and distinct last_accessed stamps), cleanupOldCache
leaves exactly MAX_CACHED_ARTICLES surviving rows, all drawn from the
store, and every deleted row is strictly older by last_accessed than
every survivor - the deleted rows are exactly the oldest ones. -/
theorem c8_capacity_trim :
    ∀ (cfg : LlmConfig) (now : Nat) (dbc : List CachedArticle),
      (∀ e ∈ dbc, ¬ e.lastAccessed < now - cfg.quizCacheTtlSeconds) →
      (dbc.map CachedArticle.id).Nodup →
      List.Pairwise (fun a b => a.lastAccessed ≠ b.lastAccessed) dbc →
      dbc.length > cfg.maxCachedArticles →
      (cleanupOldCache cfg now dbc).length = cfg.maxCachedArticles ∧
      (∀ e ∈ cleanupOldCache cfg now dbc, e ∈ dbc) ∧
      (∀ d ∈ dbc, d ∉ cleanupOldCache cfg now dbc →
        ∀ s ∈ cleanupOldCache cfg now dbc, d.lastAccessed < s.lastAccessed) := by
  intro cfg now dbc hfresh hids hdistinct hover
  have hres := c8_helper_perm cfg now dbc hfresh hids hover
  have hperm : (List.insertionSort laLe dbc).Perm dbc := List.perm_insertionSort laLe dbc
  refine ⟨?_, ?_, ?_⟩
  · rw [hres.length_eq, List.length_drop, hperm.length_eq]
    omega
  · intro e he
    exact hperm.mem_iff.mp (List.mem_of_mem_drop (hres.mem_iff.mp he))
  · intro d hd hdnot s hs
    have hs' : s ∈ (List.insertionSort laLe dbc).drop
        (dbc.length - cfg.maxCachedArticles) := hres.mem_iff.mp hs
    have hd' : d ∈ (List.insertionSort laLe dbc).take
        (dbc.length - cfg.maxCachedArticles) := by
      have hdd : d ∉ (List.insertionSort laLe dbc).drop
          (dbc.length - cfg.maxCachedArticles) :=
        fun hc => hdnot (hres.mem_iff.mpr hc)
      have hmem : d ∈ (List.insertionSort laLe dbc) := hperm.mem_iff.mpr hd
      rw [← List.take_append_drop (dbc.length - cfg.maxCachedArticles)
        (List.insertionSort laLe dbc)] at hmem
      exact (List.mem_append.mp hmem).resolve_right hdd
    have hsort : List.Pairwise laLe (List.insertionSort laLe dbc) :=
      List.sorted_insertionSort laLe dbc
    have hne : List.Pairwise (fun a b => a.lastAccessed ≠ b.lastAccessed)
        (List.insertionSort laLe dbc) :=
      (hperm.pairwise_iff (fun h => Ne.symm h)).mpr hdistinct
    rw [← List.take_append_drop (dbc.length - cfg.maxCachedArticles)
      (List.insertionSort laLe dbc)] at hsort hne
    exact lt_of_le_of_ne ((List.pairwise_append.mp hsort).2.2 d hd' s hs')
      ((List.pairwise_append.mp hne).2.2 d hd' s hs')

theorem c8_capacity_trim_witness :
    (cleanupOldCache ⟨3600, 86400, 2, some "k"⟩ 10
        [⟨"i1", "a", "t1", 1, 0, 1⟩, ⟨"i2", "b", "t2", 2, 0, 2⟩,
         ⟨"i3", "c", "t3", 3, 0, 3⟩]).length = 2 ∧
    (∀ e ∈ cleanupOldCache ⟨3600, 86400, 2, some "k"⟩ 10
        [⟨"i1", "a", "t1", 1, 0, 1⟩, ⟨"i2", "b", "t2", 2, 0, 2⟩,
         ⟨"i3", "c", "t3", 3, 0, 3⟩],
      e ∈ [⟨"i1", "a", "t1", 1, 0, 1⟩, ⟨"i2", "b", "t2", 2, 0, 2⟩,
         ⟨"i3", "c", "t3", 3, 0, 3⟩]) ∧
    (∀ d ∈ [⟨"i1", "a", "t1", 1, 0, 1⟩, ⟨"i2", "b", "t2", 2, 0, 2⟩,
         (⟨"i3", "c", "t3", 3, 0, 3⟩ : CachedArticle)],
      d ∉ cleanupOldCache ⟨3600, 86400, 2, some "k"⟩ 10
        [⟨"i1", "a", "t1", 1, 0, 1⟩, ⟨"i2", "b", "t2", 2, 0, 2⟩,
         ⟨"i3", "c", "t3", 3, 0, 3⟩] →
      ∀ s ∈ cleanupOldCache ⟨3600, 86400, 2, some "k"⟩ 10
        [⟨"i1", "a", "t1", 1, 0, 1⟩, ⟨"i2", "b", "t2", 2, 0, 2⟩,
         ⟨"i3", "c", "t3", 3, 0, 3⟩],
        d.lastAccessed < s.lastAccessed) :=
  c8_capacity_trim ⟨3600, 86400, 2, some "k"⟩ 10
    [⟨"i1", "a", "t1", 1, 0, 1⟩, ⟨"i2", "b", "t2", 2, 0, 2⟩,
     ⟨"i3", "c", "t3", 3, 0, 3⟩]
    (by decide) (by decide) (by decide) (by decide)

/-- Agreement of the two layers: no volatile entry carries a text
differing from the durable text stored under the same key. -/
def MemDbAgree (st : CacheState) : Prop :=
  ∀ e ∈ st.mem, ∀ ca ∈ st.dbc, e.key = ca.wordIds → e.text = ca.articleText

/-- At most one durable row per canonical key. -/
def DbKeysUnique (st : CacheState) : Prop :=
  List.Pairwise (fun a b => a.wordIds ≠ b.wordIds) st.dbc

def CacheInv (st : CacheState) : Prop :=
  DbKeysUnique st ∧ MemDbAgree st

/-- One observable step of the article service: a resolveArticle call at
the current instant, an eviction sweep, or the clock advancing. -/
inductive CacheStep (cfg : LlmConfig) : CacheState × Nat → CacheState × Nat → Prop where
  | resolve (words : List QuizWord) (providerText : Option String) (fid : String)
      (s : CacheState × Nat) :
      CacheStep cfg s (resolveState cfg words providerText s.2 fid s.1, s.2)
  | sweep (s : CacheState × Nat) :
      CacheStep cfg s (⟨s.1.mem, cleanupOldCache cfg s.2 s.1.dbc⟩, s.2)
  | tick (s : CacheState × Nat) (d : Nat) :
      CacheStep cfg s (s.1, s.2 + d)

/-- States reachable from the empty caches by resolve calls, sweeps and
time passing. -/
inductive CacheReachable (cfg : LlmConfig) : CacheState × Nat → Prop where
  | init (t0 : Nat) : CacheReachable cfg (⟨[], []⟩, t0)
  | step {a b : CacheState × Nat} (h1 : CacheReachable cfg a)
      (h2 : CacheStep cfg a b) : CacheReachable cfg b

theorem cleanup_mem {cfg : LlmConfig} {now : Nat} {dbc : List CachedArticle} :
    ∀ e ∈ cleanupOldCache cfg now dbc, e ∈ dbc := by
  intro e he
  unfold cleanupOldCache at he
  dsimp only at he
  split at he
  · exact List.mem_of_mem_filter (List.mem_of_mem_filter he)
  · exact List.mem_of_mem_filter he

theorem cleanup_pairwise {cfg : LlmConfig} {now : Nat} {dbc : List CachedArticle}
    {R : CachedArticle → CachedArticle → Prop} (h : List.Pairwise R dbc) :
    List.Pairwise R (cleanupOldCache cfg now dbc) := by
  unfold cleanupOldCache
  dsimp only
  split
  · exact List.Pairwise.sublist ((List.filter_sublist _).trans (List.filter_sublist _)) h
  · exact List.Pairwise.sublist (List.filter_sublist _) h

theorem touchEntry_wordIds (now : Nat) (k : String) (e : CachedArticle) :
    (touchEntry now k e).wordIds = e.wordIds := by
  unfold touchEntry
  split <;> rfl

theorem touchEntry_text (now : Nat) (k : String) (e : CachedArticle) :
    (touchEntry now k e).articleText = e.articleText := by
  unfold touchEntry
  split <;> rfl

theorem pairwise_key_eq {dbc : List CachedArticle}
    (hp : List.Pairwise (fun a b => a.wordIds ≠ b.wordIds) dbc) :
    ∀ a ∈ dbc, ∀ b ∈ dbc, a.wordIds = b.wordIds → a = b := by
  induction dbc with
  | nil => intro a ha; exact absurd ha (List.not_mem_nil a)
  | cons x xs ih =>
      intro a ha b hb heq
      rcases List.mem_cons.mp ha with rfl | ha' <;>
        rcases List.mem_cons.mp hb with rfl | hb'
      · rfl
      · exact absurd heq ((List.pairwise_cons.mp hp).1 b hb')
      · exact absurd heq.symm ((List.pairwise_cons.mp hp).1 a ha')
      · exact ih (List.pairwise_cons.mp hp).2 a ha' b hb' heq

theorem dbTouch_preserves_inv (st : CacheState) (now : Nat) (k : String)
    (hinv : CacheInv st) : CacheInv ⟨st.mem, dbTouch st.dbc now k⟩ := by
  constructor
  · unfold DbKeysUnique dbTouch
    exact List.Pairwise.map _
      (fun a b hab => by
        rw [touchEntry_wordIds, touchEntry_wordIds]; exact hab)
      hinv.1
  · intro m hmm ca hca heq
    obtain ⟨ca0, hca0, rfl⟩ := List.mem_map.mp hca
    rw [touchEntry_wordIds] at heq
    rw [touchEntry_text]
    exact hinv.2 m hmm ca0 hca0 heq

theorem gen_preserves_inv
    (cfg : LlmConfig) (words : List QuizWord) (providerText : Option String)
    (now : Nat) (fid : String) (st : CacheState) (t : String) (st' : CacheState)
    (hinv : CacheInv st)
    (h : generateQuizArticle cfg words providerText now fid st = .ok (t, st')) :
    CacheInv st' := by
  unfold generateQuizArticle at h
  dsimp only at h
  by_cases hlen : words.length = 0
  · rw [if_pos hlen] at h
    exact absurd h (by simp)
  rw [if_neg hlen] at h
  generalize hk : cacheKeyOf (words.map QuizWord.id) = k at h
  rcases hm : memProbe st.mem now k with _ | t0 <;> rw [hm] at h
  · rcases hd : dbFind st.dbc k with _ | e <;> rw [hd] at h
    · rcases hg : generateArticleWithLLM cfg words providerText with er | article <;>
        rw [hg] at h
      · exact absurd h (by simp)
      · by_cases hfull : cfg.maxCachedArticles ≤ st.mem.length
        · unfold memSet at h
          simp only [if_pos hfull] at h
          exact absurd h (by simp)
        unfold memSet at h
        simp only [if_neg hfull] at h
        have hmiss : ∀ ca ∈ st.dbc, ca.wordIds ≠ k := by
          intro ca hca
          have := List.find?_eq_none.mp hd ca hca
          simpa using this
        have hnew : DbKeysUnique
            ⟨⟨k, article, now + cfg.memTtlSeconds⟩ ::
               st.mem.filter (fun e => decide (e.key ≠ k)),
             st.dbc ++ [⟨fid, k, article, now, 0, now⟩]⟩ := by
          unfold DbKeysUnique
          rw [List.pairwise_append]
          refine ⟨hinv.1, List.pairwise_singleton _ _, ?_⟩
          intro a ha b hb
          rcases List.mem_singleton.mp hb with rfl
          exact hmiss a ha
        have hagree : MemDbAgree
            ⟨⟨k, article, now + cfg.memTtlSeconds⟩ ::
               st.mem.filter (fun e => decide (e.key ≠ k)),
             st.dbc ++ [⟨fid, k, article, now, 0, now⟩]⟩ := by
          intro m hmm ca hca heq
          rcases List.mem_cons.mp hmm with rfl | hold
          · rcases List.mem_append.mp hca with hin | hsingle
            · exact absurd heq.symm (by simpa using hmiss ca hin)
            · rcases List.mem_singleton.mp hsingle with rfl
              rfl
          · have hkey : m.key ≠ k := by
              have := (List.mem_filter.mp hold).2
              simpa using this
            rcases List.mem_append.mp hca with hin | hsingle
            · exact hinv.2 m (List.mem_of_mem_filter hold) ca hin heq
            · rcases List.mem_singleton.mp hsingle with rfl
              exact absurd heq hkey
        injection h with h'
        injection h' with h1 h2
        subst h2
        refine ⟨cleanup_pairwise hnew, ?_⟩
        intro m hmm ca hca heq
        exact hagree m hmm ca (cleanup_mem ca hca) heq
    · have hekey : e.wordIds = k := by
        have := List.find?_some hd
        simpa using this
      have hemem : e ∈ st.dbc := List.mem_of_find?_eq_some hd
      by_cases hfull : cfg.maxCachedArticles ≤ st.mem.length
      · unfold memSet at h
        simp only [if_pos hfull] at h
        exact absurd h (by simp)
      unfold memSet at h
      simp only [if_neg hfull] at h
      injection h with h'
      injection h' with h1 h2
      subst h2
      constructor
      · unfold DbKeysUnique dbTouch
        exact List.Pairwise.map _
          (fun a b hab => by
            rw [touchEntry_wordIds, touchEntry_wordIds]; exact hab)
          hinv.1
      · intro m hmm ca hca heq
        obtain ⟨ca0, hca0, rfl⟩ := List.mem_map.mp hca
        rw [touchEntry_wordIds] at heq
        rw [touchEntry_text]
        rcases List.mem_cons.mp hmm with rfl | hold
        · have : ca0 = e :=
            pairwise_key_eq hinv.1 ca0 hca0 e hemem (heq.symm.trans hekey.symm)
          rw [this]
        · have hkey : m.key ≠ k := by
            have := (List.mem_filter.mp hold).2
            simpa using this
          exact hinv.2 m (List.mem_of_mem_filter hold) ca0 hca0 heq
  · injection h with h'
    injection h' with h1 h2
    subst h2
    exact hinv

theorem gen_err_inv
    (cfg : LlmConfig) (words : List QuizWord) (providerText : Option String)
    (now : Nat) (fid : String) (st : CacheState) (er : LlmErr) (stE : CacheState)
    (hinv : CacheInv st)
    (h : generateQuizArticle cfg words providerText now fid st = .error (er, stE)) :
    CacheInv stE := by
  unfold generateQuizArticle at h
  dsimp only at h
  by_cases hlen : words.length = 0
  · rw [if_pos hlen] at h
    injection h with h'
    injection h' with h1 h2
    subst h2
    exact hinv
  rw [if_neg hlen] at h
  generalize hk : cacheKeyOf (words.map QuizWord.id) = k at h
  rcases hm : memProbe st.mem now k with _ | t0 <;> rw [hm] at h
  · rcases hd : dbFind st.dbc k with _ | e <;> rw [hd] at h
    · rcases hg : generateArticleWithLLM cfg words providerText with er2 | article <;>
        rw [hg] at h
      · injection h with h'
        injection h' with h1 h2
        subst h2
        exact hinv
      · by_cases hfull : cfg.maxCachedArticles ≤ st.mem.length
        · unfold memSet at h
          simp only [if_pos hfull] at h
          injection h with h'
          injection h' with h1 h2
          subst h2
          exact hinv
        · unfold memSet at h
          simp only [if_neg hfull] at h
          exact absurd h (by simp)
    · by_cases hfull : cfg.maxCachedArticles ≤ st.mem.length
      · unfold memSet at h
        simp only [if_pos hfull] at h
        injection h with h'
        injection h' with h1 h2
        subst h2
        exact dbTouch_preserves_inv st now k hinv
      · unfold memSet at h
        simp only [if_neg hfull] at h
        exact absurd h (by simp)
  · exact absurd h (by simp)

theorem resolveState_preserves_inv
    (cfg : LlmConfig) (words : List QuizWord) (providerText : Option String)
    (now : Nat) (fid : String) (st : CacheState) (hinv : CacheInv st) :
    CacheInv (resolveState cfg words providerText now fid st) := by
  unfold resolveState
  rcases hg : generateQuizArticle cfg words providerText now fid st with ⟨er, stE⟩ | ⟨t, st'⟩
  · exact gen_err_inv cfg words providerText now fid st er stE hinv hg
  · exact gen_preserves_inv cfg words providerText now fid st t st' hinv hg

theorem reachable_cacheInv :
    ∀ (cfg : LlmConfig) (s : CacheState × Nat), CacheReachable cfg s →
      CacheInv s.1 := by
  intro cfg s hreach
  induction hreach with
  | init t0 =>
      exact ⟨List.Pairwise.nil, fun e he => absurd he (List.not_mem_nil e)⟩
  | @step a b h1 h2 ih =>
      cases h2 with
      | resolve words providerText fid =>
          exact resolveState_preserves_inv cfg words providerText a.2 fid a.1 ih
      | sweep =>
          exact ⟨cleanup_pairwise ih.1,
            fun m hm ca hca heq => ih.2 m hm ca (cleanup_mem ca hca) heq⟩
      | tick => exact ih

/-- C7 amended: in every reachable state the two layers agree on common
keys - a volatile entry never carries a text differing from the durable
text stored under the same key; but the volatile layer is not a subset of
the durable layer (see the counterexample: after an eviction sweep the
volatile cache can keep serving a key the durable store has deleted). -/
theorem c7_layer_agreement :
    ∀ (cfg : LlmConfig) (s : CacheState × Nat), CacheReachable cfg s →
      ∀ e ∈ s.1.mem, ∀ ca ∈ s.1.dbc, e.key = ca.wordIds → e.text = ca.articleText :=
  fun cfg s hreach => (reachable_cacheInv cfg s hreach).2

theorem c7_layer_agreement_witness :
    MemEntry.text ⟨cacheKeyOf ([wA, wB, wC].map QuizWord.id),
        generateFallbackArticle [wA, wB, wC], 3600⟩ =
      CachedArticle.articleText ⟨"art1", cacheKeyOf ([wA, wB, wC].map QuizWord.id),
        generateFallbackArticle [wA, wB, wC], 0, 0, 0⟩ :=
  c7_layer_agreement cfgDef (c3St1, 0)
    (CacheReachable.step (CacheReachable.init 0)
      (CacheStep.resolve [wA, wB, wC] none "art1" (⟨[], []⟩, 0)))
    ⟨cacheKeyOf ([wA, wB, wC].map QuizWord.id),
      generateFallbackArticle [wA, wB, wC], 3600⟩ (by decide)
    ⟨"art1", cacheKeyOf ([wA, wB, wC].map QuizWord.id),
      generateFallbackArticle [wA, wB, wC], 0, 0, 0⟩ (by decide) (by decide)

/-- The configuration of the C7 counterexample: volatile TTL 3600 but
durable max age 1000 seconds (QUIZ_CACHE_TTL_SECONDS=1000). -/
def cfg7 : LlmConfig := ⟨3600, 1000, 1000, some "k"⟩

/-- The state reached by resolving the set with word-1 at time 0 and then
the set with word-2 at time 2000: the second call's cleanup sweep deletes
the word-1 durable row (older than the 1000 second max age) while the
volatile word-1 entry lives until 3600. -/
def c7Bad : CacheState :=
  resolveState cfg7 [wB] none 2000 "a2"
    (resolveState cfg7 [wA] none 0 "a1" ⟨[], []⟩)

/-- C7 counterexample: a reachable state in which the volatile cache holds
a live, truthy entry for key word-1 while the durable store holds no row
with that key - the volatile layer is not a subset of the durable one. -/
theorem c7_counterexample_not_subset :
    CacheReachable cfg7 (c7Bad, 2000) ∧
    (∃ e ∈ c7Bad.mem, e.key = "word-1" ∧ 2000 < e.expiresAt ∧ e.text ≠ "") ∧
    (∀ ca ∈ c7Bad.dbc, ca.wordIds ≠ "word-1") := by
  refine ⟨?_, by decide, by decide⟩
  exact CacheReachable.step
    (CacheReachable.step
      (CacheReachable.step (CacheReachable.init 0)
        (CacheStep.resolve [wA] none "a1" (⟨[], []⟩, 0)))
      (CacheStep.tick (resolveState cfg7 [wA] none 0 "a1" ⟨[], []⟩, 0) 2000))
    (CacheStep.resolve [wB] none "a2"
      (resolveState cfg7 [wA] none 0 "a1" ⟨[], []⟩, 2000))
